import Mathlib

/-!
Verification of the `tagged` Go package (Splizard/tagged): a generic tagged-union
value type. The source (`tagged.go`) is shallowly embedded below:

* Go types that may appear as union alternatives are modelled by `Tagged.Ty`,
  Go values by `Tagged.Val`, with a decidable typing judgement `Tagged.HasTy`.
* `reflect`-based structural queries (`hasPointers`, `unsafe.Sizeof`) are
  modelled by `Tagged.hasPointers` and `Tagged.sizeof`/`Tagged.alignof`
  (Go's 64-bit ABI: scalar and header sizes, struct fields at offsets
  rounded up to their alignment, struct size rounded up to the struct's
  alignment).
* `reflect.TypeOf(buffer).Kind()` in `values` is modelled by
  `Tagged.Buf.kindIsArray`: the zero `any` buffer is a nil interface, so
  `reflect.TypeOf` returns nil and the `Kind` call panics — derivation for
  the unbounded kind fails before its loop runs.
* Inline storage (`*(*Value)(ptr) = value` followed by a typed read at the
  same offset) is modelled by a little-endian byte serialisation
  `Tagged.encode` / `Tagged.decode`; the typed-store/typed-load round trip
  guaranteed by the language is proved for the model as
  `Tagged.decode_encode`.
* The union runtime (`Field`, `As.New`, `As.Get`, `As.Lookup`, `As.load`,
  `UnionMethods.values`/`Fields`, `UnionMethods.getTag`/`FieldOf`) is
  translated operation by operation; Go panics become `Except.error` carrying
  the panic message.
-/

namespace Tagged

/-- Go types that can be declared as union alternatives. Scalar kinds carry a
byte width; `ptrT, chanT, mapT, ifaceT, sliceT, funcT, uptrT` are the
pointer-like reflect kinds enumerated by `hasPointers` in tagged.go; `arrT`
and `strctT` are the aggregate kinds it recurses into. -/
inductive Ty : Type where
  | boolT | u8 | u16 | u32 | u64
  | ptrT | chanT | mapT | ifaceT | sliceT | funcT | uptrT
  | arrT (n : Nat) (t : Ty)
  | strctT (fs : List Ty)

mutual
/-- Boolean equality on `Ty` (the derived instance is unavailable for this
nested inductive, so it is spelled out). -/
def tyBeq : Ty → Ty → Bool
  | .boolT, .boolT | .u8, .u8 | .u16, .u16 | .u32, .u32 | .u64, .u64 => true
  | .ptrT, .ptrT | .chanT, .chanT | .mapT, .mapT | .ifaceT, .ifaceT => true
  | .sliceT, .sliceT | .funcT, .funcT | .uptrT, .uptrT => true
  | .arrT n t, .arrT m s => n == m && tyBeq t s
  | .strctT fs, .strctT gs => tyListBeq fs gs
  | _, _ => false
/-- Boolean equality on lists of `Ty`. -/
def tyListBeq : List Ty → List Ty → Bool
  | [], [] => true
  | t :: ts, s :: ss => tyBeq t s && tyListBeq ts ss
  | _, _ => false
end

mutual
theorem tyBeq_iff : ∀ a b : Ty, tyBeq a b = true ↔ a = b
  | .arrT n t, .arrT m s => by
    simp only [tyBeq, Bool.and_eq_true, beq_iff_eq, tyBeq_iff t s, Ty.arrT.injEq]
  | .strctT fs, .strctT gs => by
    simp [tyBeq, tyListBeq_iff fs gs, Ty.strctT.injEq]
  | .boolT, b => by cases b <;> simp [tyBeq]
  | .u8, b => by cases b <;> simp [tyBeq]
  | .u16, b => by cases b <;> simp [tyBeq]
  | .u32, b => by cases b <;> simp [tyBeq]
  | .u64, b => by cases b <;> simp [tyBeq]
  | .ptrT, b => by cases b <;> simp [tyBeq]
  | .chanT, b => by cases b <;> simp [tyBeq]
  | .mapT, b => by cases b <;> simp [tyBeq]
  | .ifaceT, b => by cases b <;> simp [tyBeq]
  | .sliceT, b => by cases b <;> simp [tyBeq]
  | .funcT, b => by cases b <;> simp [tyBeq]
  | .uptrT, b => by cases b <;> simp [tyBeq]
  | .arrT n t, .boolT => by simp [tyBeq]
  | .arrT n t, .u8 => by simp [tyBeq]
  | .arrT n t, .u16 => by simp [tyBeq]
  | .arrT n t, .u32 => by simp [tyBeq]
  | .arrT n t, .u64 => by simp [tyBeq]
  | .arrT n t, .ptrT => by simp [tyBeq]
  | .arrT n t, .chanT => by simp [tyBeq]
  | .arrT n t, .mapT => by simp [tyBeq]
  | .arrT n t, .ifaceT => by simp [tyBeq]
  | .arrT n t, .sliceT => by simp [tyBeq]
  | .arrT n t, .funcT => by simp [tyBeq]
  | .arrT n t, .uptrT => by simp [tyBeq]
  | .arrT n t, .strctT gs => by simp [tyBeq]
  | .strctT fs, .boolT => by simp [tyBeq]
  | .strctT fs, .u8 => by simp [tyBeq]
  | .strctT fs, .u16 => by simp [tyBeq]
  | .strctT fs, .u32 => by simp [tyBeq]
  | .strctT fs, .u64 => by simp [tyBeq]
  | .strctT fs, .ptrT => by simp [tyBeq]
  | .strctT fs, .chanT => by simp [tyBeq]
  | .strctT fs, .mapT => by simp [tyBeq]
  | .strctT fs, .ifaceT => by simp [tyBeq]
  | .strctT fs, .sliceT => by simp [tyBeq]
  | .strctT fs, .funcT => by simp [tyBeq]
  | .strctT fs, .uptrT => by simp [tyBeq]
  | .strctT fs, .arrT m s => by simp [tyBeq]
theorem tyListBeq_iff : ∀ a b : List Ty, tyListBeq a b = true ↔ a = b
  | [], [] => by simp [tyListBeq]
  | t :: ts, s :: ss => by
    simp [tyListBeq, tyBeq_iff t s, tyListBeq_iff ts ss]
  | [], _ :: _ => by simp [tyListBeq]
  | _ :: _, [] => by simp [tyListBeq]
end

instance : DecidableEq Ty := fun a b => decidable_of_iff _ (tyBeq_iff a b)

mutual
/-- Translation of `hasPointers` (tagged.go): a type is pointer-like when its
reflect kind is Ptr, Chan, Map, Interface, Slice, Func or UnsafePointer, a
struct with a pointer-like field, or an array of a pointer-like element. -/
def hasPointers : Ty → Bool
  | .ptrT | .chanT | .mapT | .ifaceT | .sliceT | .funcT | .uptrT => true
  | .strctT fs => hasPointersList fs
  | .arrT _ t => hasPointers t
  | _ => false
/-- The struct case of `hasPointers`: any field pointer-like. -/
def hasPointersList : List Ty → Bool
  | [] => false
  | t :: ts => hasPointers t || hasPointersList ts
end

mutual
/-- Alignment of a Go type on a 64-bit target: a scalar aligns to its own
size, pointer-like headers to 8, an array like its element, a struct like
its most-aligned field (1 when empty). -/
def alignof : Ty → Nat
  | .boolT | .u8 => 1
  | .u16 => 2
  | .u32 => 4
  | .u64 => 8
  | .ptrT | .chanT | .mapT | .funcT | .uptrT => 8
  | .ifaceT | .sliceT => 8
  | .arrT _ t => alignof t
  | .strctT fs => alignofList fs
/-- Alignment of a struct's field list: the maximum field alignment. -/
def alignofList : List Ty → Nat
  | [] => 1
  | t :: ts => max (alignof t) (alignofList ts)
end

/-- Round `off` up to the next multiple of `a`. -/
def alignUp (off a : Nat) : Nat := off + (a - off % a) % a

mutual
/-- Model of `unsafe.Sizeof` for alternative types on a 64-bit target:
scalar and header sizes (interface 16, slice 24, pointers 8); an array is
`n` times its element size; a struct lays its fields out in declaration
order, each at an offset rounded up to the field's alignment, and rounds
the total up to the struct's alignment — Go's padding rules (so for
example `struct{uint64; uint8}` has size 16, not 9). -/
def sizeof : Ty → Nat
  | .boolT | .u8 => 1
  | .u16 => 2
  | .u32 => 4
  | .u64 => 8
  | .ptrT | .chanT | .mapT | .funcT | .uptrT => 8
  | .ifaceT => 16
  | .sliceT => 24
  | .arrT n t => n * sizeof t
  | .strctT fs => alignUp (structEnd fs 0) (alignofList fs)
/-- Offset one past the last field of a struct whose fields are laid out
from `off` on, each at an offset rounded up to its own alignment. -/
def structEnd : List Ty → Nat → Nat
  | [], off => off
  | t :: ts, off => structEnd ts (alignUp off (alignof t) + sizeof t)
end

/-- Go runtime values: scalars as numeric bit patterns, pointer-like values as
abstract reference tokens (`ref 0` is nil), and aggregates. -/
inductive Val : Type where
  | bits (n : Nat)
  | ref (k : Nat)
  | arrV (vs : List Val)
  | strctV (vs : List Val)

mutual
/-- Typing judgement: `HasTy v t` holds when `v` is a value of the Go type
`t` (scalars in range for their width, aggregates field by field). -/
def HasTy : Val → Ty → Bool
  | .bits n, .boolT => n < 2
  | .bits n, .u8 => n < 256
  | .bits n, .u16 => n < 65536
  | .bits n, .u32 => n < 4294967296
  | .bits n, .u64 => n < 18446744073709551616
  | .ref _, .ptrT | .ref _, .chanT | .ref _, .mapT | .ref _, .ifaceT => true
  | .ref _, .sliceT | .ref _, .funcT | .ref _, .uptrT => true
  | .arrV vs, .arrT n t => vs.length == n && HasTyAll vs t
  | .strctV vs, .strctT fs => HasTyFields vs fs
  | _, _ => false
/-- All elements typed by the same element type (arrays). -/
def HasTyAll : List Val → Ty → Bool
  | [], _ => true
  | v :: vs, t => HasTy v t && HasTyAll vs t
/-- Values typed pointwise by a field list (structs). -/
def HasTyFields : List Val → List Ty → Bool
  | [], [] => true
  | v :: vs, t :: ts => HasTy v t && HasTyFields vs ts
  | _, _ => false
end

mutual
/-- The Go zero value of a type (`var zero Value` in `Lookup`). -/
def zeroVal : Ty → Val
  | .boolT | .u8 | .u16 | .u32 | .u64 => .bits 0
  | .ptrT | .chanT | .mapT | .ifaceT | .sliceT | .funcT | .uptrT => .ref 0
  | .arrT n t => .arrV (List.replicate n (zeroVal t))
  | .strctT fs => .strctV (zeroValList fs)
/-- Zero values of a struct's fields. -/
def zeroValList : List Ty → List Val
  | [] => []
  | t :: ts => zeroVal t :: zeroValList ts
end

/-- Little-endian byte serialisation of a `w`-byte machine scalar. -/
def encBytes : Nat → Nat → List Nat
  | 0, _ => []
  | w + 1, n => n % 256 :: encBytes w (n / 256)

/-- Little-endian read of a `w`-byte machine scalar from a byte list
(missing bytes read as zero). -/
def decBits : Nat → List Nat → Nat
  | 0, _ => 0
  | _ + 1, [] => 0
  | w + 1, b :: bs => b + 256 * decBits w bs

mutual
/-- Byte image written by the inline branch of `As.New`
(`*(*Value)(unsafe.Add(...)) = value`): the value's in-memory representation. -/
def encode : Ty → Val → List Nat
  | .boolT, .bits n | .u8, .bits n => encBytes 1 n
  | .u16, .bits n => encBytes 2 n
  | .u32, .bits n => encBytes 4 n
  | .u64, .bits n => encBytes 8 n
  | .ptrT, .ref k | .chanT, .ref k | .mapT, .ref k => encBytes 8 k
  | .funcT, .ref k | .uptrT, .ref k => encBytes 8 k
  | .ifaceT, .ref k => encBytes 16 k
  | .sliceT, .ref k => encBytes 24 k
  | .arrT _ t, .arrV vs => encodeArr t vs
  | .strctT fs, .strctV vs =>
    encodeFields fs 0 vs ++ List.replicate (sizeof (.strctT fs) - structEnd fs 0) 0
  | _, _ => []
/-- Concatenated images of an array's elements (an element's size is a
multiple of its alignment, so elements abut). -/
def encodeArr : Ty → List Val → List Nat
  | _, [] => []
  | t, v :: vs => encode t v ++ encodeArr t vs
/-- Images of a struct's fields laid out from byte offset `off`: zero
padding up to each field's aligned offset, then the field's image. -/
def encodeFields : List Ty → Nat → List Val → List Nat
  | t :: ts, off, v :: vs =>
    List.replicate (alignUp off (alignof t) - off) 0 ++ encode t v ++
      encodeFields ts (alignUp off (alignof t) + sizeof t) vs
  | _, _, _ => []
end

mutual
/-- Typed read performed by the inline branch of `As.Lookup`
(`*(*Value)(unsafe.Add(...))`): reinterpret the bytes at the front of the
list as a value of the given type. -/
def decode : Ty → List Nat → Val
  | .boolT, bs | .u8, bs => .bits (decBits 1 bs)
  | .u16, bs => .bits (decBits 2 bs)
  | .u32, bs => .bits (decBits 4 bs)
  | .u64, bs => .bits (decBits 8 bs)
  | .ptrT, bs | .chanT, bs | .mapT, bs => .ref (decBits 8 bs)
  | .funcT, bs | .uptrT, bs => .ref (decBits 8 bs)
  | .ifaceT, bs => .ref (decBits 16 bs)
  | .sliceT, bs => .ref (decBits 24 bs)
  | .arrT n t, bs => .arrV ((List.range n).map fun i => decode t (bs.drop (i * sizeof t)))
  | .strctT fs, bs => .strctV (decodeFields fs 0 bs)
/-- Field-by-field typed read of a struct whose fields are laid out from
byte offset `off`; `bs` holds the bytes from `off` on, so each field is
read past its alignment padding. -/
def decodeFields : List Ty → Nat → List Nat → List Val
  | [], _, _ => []
  | t :: ts, off, bs =>
    decode t (bs.drop (alignUp off (alignof t) - off)) ::
      decodeFields ts (alignUp off (alignof t) + sizeof t)
        (bs.drop (alignUp off (alignof t) - off + sizeof t))
end

/-- Element-by-element typed read of an array of `n` elements; `decode` on
`arrT` agrees with it (`decode_arrT`). -/
def decodeRep : Nat → Ty → List Nat → List Val
  | 0, _, _ => []
  | n + 1, t, bs => decode t bs :: decodeRep n t (bs.drop (sizeof t))

theorem decodeRep_eq_map (t : Ty) :
    ∀ (n : Nat) (bs : List Nat),
      decodeRep n t bs = (List.range n).map fun i => decode t (bs.drop (i * sizeof t)) := by
  intro n
  induction n with
  | zero => intro bs; simp [decodeRep]
  | succ m ih =>
    intro bs
    rw [List.range_succ_eq_map, List.map_cons, List.map_map]
    simp only [decodeRep, Nat.zero_mul, List.drop_zero]
    congr 1
    rw [ih (bs.drop (sizeof t))]
    apply List.map_congr_left
    intro i _
    simp only [Function.comp_apply, List.drop_drop, Nat.succ_eq_add_one]
    congr 1
    ring_nf

theorem decode_arrT (n : Nat) (t : Ty) (bs : List Nat) :
    decode (.arrT n t) bs = .arrV (decodeRep n t bs) := by
  rw [decode, decodeRep_eq_map]

theorem encBytes_length : ∀ (w n : Nat), (encBytes w n).length = w
  | 0, _ => rfl
  | w + 1, n => by simp [encBytes, encBytes_length w]

theorem decBits_encBytes : ∀ (w n : Nat) (rest : List Nat),
    decBits w (encBytes w n ++ rest) = n % 256 ^ w
  | 0, n, _ => by simp [encBytes, decBits, Nat.mod_one]
  | w + 1, n, rest => by
    simp only [encBytes, List.cons_append, decBits, List.append_eq]
    rw [decBits_encBytes w (n / 256) rest, pow_succ, mul_comm (256 ^ w) 256]
    exact Nat.mod_mul.symm

theorem decBits_encBytes_of_lt (w n : Nat) (hn : n < 256 ^ w) (rest : List Nat) :
    decBits w (encBytes w n ++ rest) = n := by
  rw [decBits_encBytes, Nat.mod_eq_of_lt hn]

theorem le_alignUp (off a : Nat) : off ≤ alignUp off a :=
  Nat.le_add_right off _

theorem structEnd_ge : ∀ (fs : List Ty) (off : Nat), off ≤ structEnd fs off
  | [], _ => le_refl _
  | t :: ts, off => by
    have h1 : off ≤ alignUp off (alignof t) := le_alignUp off (alignof t)
    have h2 := structEnd_ge ts (alignUp off (alignof t) + sizeof t)
    simp only [structEnd]
    omega

theorem drop_replicate_append (k : Nat) (l : List Nat) :
    (List.replicate k (0 : Nat) ++ l).drop k = l := by
  have h := List.drop_left (List.replicate k (0 : Nat)) l
  rwa [List.length_replicate] at h

mutual
/-- A well-typed value's byte image has exactly the size of its type. -/
theorem encode_length : ∀ (v : Val) (t : Ty), HasTy v t = true → (encode t v).length = sizeof t
  | .bits n, t, h => by
    cases t <;> simp_all [HasTy, encode, encBytes_length, sizeof]
  | .ref k, t, h => by
    cases t <;> simp_all [HasTy, encode, encBytes_length, sizeof]
  | .arrV vs, t, h => by
    cases t <;> simp only [HasTy, Bool.false_eq_true] at h
    case arrT n t =>
      simp only [Bool.and_eq_true, beq_iff_eq] at h
      simp only [encode, sizeof]
      rw [encodeArr_length vs t h.2, h.1]
  | .strctV vs, t, h => by
    cases t <;> simp only [HasTy, Bool.false_eq_true] at h
    case strctT fs =>
      have h1 := encodeFields_length vs fs 0 h
      have h2 := structEnd_ge fs 0
      have h3 := le_alignUp (structEnd fs 0) (alignofList fs)
      simp only [encode, sizeof, List.length_append, List.length_replicate, h1]
      omega
theorem encodeArr_length : ∀ (vs : List Val) (t : Ty), HasTyAll vs t = true →
    (encodeArr t vs).length = vs.length * sizeof t
  | [], t, _ => by simp [encodeArr]
  | v :: vs, t, h => by
    simp only [HasTyAll, Bool.and_eq_true] at h
    simp only [encodeArr, List.length_append, List.length_cons]
    rw [encode_length v t h.1, encodeArr_length vs t h.2]
    ring
theorem encodeFields_length : ∀ (vs : List Val) (fs : List Ty) (off : Nat),
    HasTyFields vs fs = true → (encodeFields fs off vs).length = structEnd fs off - off
  | [], [], off, _ => by simp [encodeFields, structEnd]
  | v :: vs, t :: ts, off, h => by
    simp only [HasTyFields, Bool.and_eq_true] at h
    have h1 := encode_length v t h.1
    have h2 := encodeFields_length vs ts (alignUp off (alignof t) + sizeof t) h.2
    have h3 := le_alignUp off (alignof t)
    have h4 := structEnd_ge ts (alignUp off (alignof t) + sizeof t)
    simp only [encodeFields, structEnd, List.length_append, List.length_replicate, h1, h2]
    omega
  | [], _ :: _, _, h => by simp [HasTyFields] at h
  | _ :: _, [], _, h => by simp [HasTyFields] at h
end

mutual
/-- Round trip of the inline storage model: a typed store of a well-typed,
pointer-free value followed by a typed load at the same spot recovers the
value, whatever bytes follow it in the buffer. -/
theorem decode_encode : ∀ (v : Val) (t : Ty), HasTy v t = true → hasPointers t = false →
    ∀ rest : List Nat, decode t (encode t v ++ rest) = v
  | .bits n, .boolT, h, _, rest => by
    simp only [HasTy, decide_eq_true_eq] at h
    simp only [encode, decode]
    rw [decBits_encBytes_of_lt 1 n (lt_trans h (by norm_num)) rest]
  | .bits n, .u8, h, _, rest => by
    simp only [HasTy, decide_eq_true_eq] at h
    simp only [encode, decode]
    rw [decBits_encBytes_of_lt 1 n (by norm_num [h]) rest]
  | .bits n, .u16, h, _, rest => by
    simp only [HasTy, decide_eq_true_eq] at h
    simp only [encode, decode]
    rw [decBits_encBytes_of_lt 2 n (by norm_num [h]) rest]
  | .bits n, .u32, h, _, rest => by
    simp only [HasTy, decide_eq_true_eq] at h
    simp only [encode, decode]
    rw [decBits_encBytes_of_lt 4 n (by norm_num [h]) rest]
  | .bits n, .u64, h, _, rest => by
    simp only [HasTy, decide_eq_true_eq] at h
    simp only [encode, decode]
    rw [decBits_encBytes_of_lt 8 n (by norm_num [h]) rest]
  | .bits n, .ptrT, h, _, _ => by simp [HasTy] at h
  | .bits n, .chanT, h, _, _ => by simp [HasTy] at h
  | .bits n, .mapT, h, _, _ => by simp [HasTy] at h
  | .bits n, .ifaceT, h, _, _ => by simp [HasTy] at h
  | .bits n, .sliceT, h, _, _ => by simp [HasTy] at h
  | .bits n, .funcT, h, _, _ => by simp [HasTy] at h
  | .bits n, .uptrT, h, _, _ => by simp [HasTy] at h
  | .bits n, .arrT _ _, h, _, _ => by simp [HasTy] at h
  | .bits n, .strctT _, h, _, _ => by simp [HasTy] at h
  | .ref k, t, h, hp, rest => by
    cases t <;> simp_all [HasTy, hasPointers]
  | .arrV vs, t, h, hp, rest => by
    cases t <;> simp only [HasTy, Bool.false_eq_true] at h
    case arrT n t =>
      simp only [Bool.and_eq_true, beq_iff_eq] at h
      simp only [hasPointers] at hp
      simp only [encode]
      rw [decode_arrT, ← h.1, decodeRep_encodeArr vs t h.2 hp rest]
  | .strctV vs, t, h, hp, rest => by
    cases t <;> simp only [HasTy, Bool.false_eq_true] at h
    case strctT fs =>
      simp only [hasPointers] at hp
      simp only [encode, decode, List.append_assoc]
      rw [decodeFields_encodeFields vs fs 0 h hp]
theorem decodeRep_encodeArr : ∀ (vs : List Val) (t : Ty), HasTyAll vs t = true →
    hasPointers t = false → ∀ rest : List Nat,
    decodeRep vs.length t (encodeArr t vs ++ rest) = vs
  | [], t, _, _, rest => by simp [encodeArr, decodeRep]
  | v :: vs, t, h, hp, rest => by
    simp only [HasTyAll, Bool.and_eq_true] at h
    simp only [encodeArr, List.length_cons, decodeRep, List.append_assoc]
    rw [decode_encode v t h.1 hp]
    rw [← encode_length v t h.1, List.drop_left]
    rw [decodeRep_encodeArr vs t h.2 hp rest]
theorem decodeFields_encodeFields : ∀ (vs : List Val) (fs : List Ty) (off : Nat),
    HasTyFields vs fs = true → hasPointersList fs = false → ∀ rest : List Nat,
    decodeFields fs off (encodeFields fs off vs ++ rest) = vs
  | [], [], _, _, _, rest => by simp [encodeFields, decodeFields]
  | v :: vs, t :: ts, off, h, hp, rest => by
    simp only [HasTyFields, Bool.and_eq_true] at h
    simp only [hasPointersList, Bool.or_eq_false_iff] at hp
    have hlen : (encode t v).length = sizeof t := encode_length v t h.1
    simp only [encodeFields, decodeFields, List.append_assoc]
    rw [drop_replicate_append]
    rw [decode_encode v t h.1 hp.1]
    congr 1
    rw [show alignUp off (alignof t) - off + sizeof t
        = (List.replicate (alignUp off (alignof t) - off) (0 : Nat) ++ encode t v).length from by
      simp [hlen]]
    rw [← List.append_assoc, List.drop_left]
    exact decodeFields_encodeFields vs ts (alignUp off (alignof t) + sizeof t) h.2 hp.2 rest
  | [], _ :: _, _, h, _, _ => by simp [HasTyFields] at h
  | _ :: _, [], _, h, _, _ => by simp [HasTyFields] at h
end

/-- Buffer kind of a union type `Union[Buf, Values]`: a fixed byte array
`[n]byte`, or `any` (the unbounded kind that always boxes). -/
inductive Buf : Type where
  | bytes (n : Nat)
  | anyBuf
  deriving DecidableEq

/-- Panic raised by `values` for the `any` buffer before its loop runs:
`reflect.TypeOf(buffer)` is called on the zero value of `Buf` — a nil
interface — so it returns nil, and calling `Kind` on the nil `reflect.Type`
panics with a nil-pointer dereference. -/
def nilKindMsg : String := "runtime error: invalid memory address or nil pointer dereference"

/-- `reflect.TypeOf(buffer).Kind() == reflect.Array`, computed by `values`
on the zero buffer value: `true` for a `[n]byte` buffer (kind Array); for
the `any` buffer the computation panics as described at `nilKindMsg`. -/
def Buf.kindIsArray : Buf → Except String Bool
  | .bytes _ => .ok true
  | .anyBuf => .error nilKindMsg

/-- `unsafe.Sizeof(buffer)`: `n` for `[n]byte`, 16 for the `any` interface
header on a 64-bit target. -/
def Buf.size : Buf → Nat
  | .bytes n => n
  | .anyBuf => 16

/-- `unsafe.Offsetof(union.buf)` in the layout
`UnionMethods[Buf, Values]{tag int16; any bool; buf Buf}`: `tag` occupies
bytes 0-1 and `any` byte 2, so a byte-array buffer (alignment 1) starts at
byte 3 and an `any` buffer (interface, alignment 8) at byte 8. -/
def Buf.offset : Buf → Nat
  | .bytes _ => 3
  | .anyBuf => 8

/-- `tagged.Field`: discriminant (`tag int16`), recorded buffer offset
(`set uintptr`, 0 meaning uninitialized), and boxed flag (`any bool`). -/
structure Field : Type where
  tag : Int
  set : Nat
  any : Bool
  deriving DecidableEq

/-- Go's `int16(i)` conversion of the field index in `values`:
two's-complement truncation to 16 bits. -/
def int16ofNat (i : Nat) : Int :=
  if i % 65536 < 32768 then (i % 65536 : Int) else (i % 65536 : Int) - 65536

/-- Panic message of `New`, `Get` and `Lookup` on an uninitialized
descriptor. -/
def initMsg : String := "tagged.Field must be initialized before use"

/-- Panic message of `Get` on a discriminant mismatch. -/
def wrongTagMsg : String := "tagged.Field.Get called with wrong tag"

/-- Panic message of `load` for a pointer-bearing alternative over a fixed
buffer (the Go message interpolates the concrete types). -/
def pointersMsg : String := "cannot load value, contains pointers"

/-- Panic message of `load` for an oversized alternative (the Go message
interpolates the concrete types). -/
def tooSmallMsg : String := "cannot load value, buffer too small"

/-- Panic message of the field-count guard in `values`. -/
def tooManyMsg : String := "too many fields"

/-- Panic message of a failed interface type assertion
(`typed.buf.(Value)` in the boxed branch of `Lookup`). -/
def assertMsg : String := "interface conversion"

/-- Marker for reading a buffer through a descriptor whose storage mode
disagrees with the union's actual buffer kind: undefined behaviour in Go,
fatal in the model. -/
def misuseMsg : String := "invalid memory reinterpretation"

/-- Translation of `(*As).load`: validate one alternative against the buffer
kind and record its descriptor. The caller (`values`) passes
`direct = (reflect.TypeOf(buffer).Kind() == reflect.Array)`,
`buf = unsafe.Sizeof(buffer)` and `offset = unsafe.Offsetof(union.buf)`. -/
def load (t : Ty) (tag : Int) (direct : Bool) (buf : Nat) (offset : Nat) :
    Except String Field :=
  if hasPointers t && direct then .error pointersMsg
  else if direct && decide (buf < sizeof t) then .error tooSmallMsg
  else .ok { tag := tag, set := offset, any := !direct }

/-- The loop of `UnionMethods.values` from field index `i` on, after the
buffer kind has been computed into `direct`: guard the index against
`math.MaxInt32`, then `load` the field with its `int16` discriminant. -/
def valuesFrom (b : Buf) (direct : Bool) : Nat → List Ty → Except String (List Field)
  | _, [] => .ok []
  | i, t :: ts =>
    if 2147483647 < i then .error tooManyMsg
    else
      match load t (int16ofNat i) direct b.size b.offset with
      | .error e => .error e
      | .ok f =>
        match valuesFrom b direct (i + 1) ts with
        | .error e => .error e
        | .ok fs => .ok (f :: fs)

/-- `tagged.Fields` (via `UnionMethods.values`): compute
`direct = (reflect.TypeOf(buffer).Kind() == reflect.Array)` — which panics
for the `any` buffer — then derive one descriptor per declared alternative,
in declaration order, starting at discriminant 0. -/
def Fields (b : Buf) (alts : List Ty) : Except String (List Field) :=
  match b.kindIsArray with
  | .error e => .error e
  | .ok direct => valuesFrom b direct 0 alts

/-- Contents of a union value's buffer field: raw bytes (fixed buffer), a
boxed value with its dynamic type (`any` buffer), or a nil `any` buffer. -/
inductive Storage : Type where
  | raw (bs : List Nat)
  | box (dyn : Ty) (v : Val)
  | nilBox

/-- A union value (`UnionMethods[Buf, Values]`): discriminant, boxed flag,
buffer contents. -/
structure UnionVal : Type where
  tag : Int
  any : Bool
  buf : Storage

/-- Translation of `As.New`: construct a fresh union value holding `v` under
descriptor `f`. In the inline branch Go zero-initialises the fresh value and
writes `v`'s bytes at offset `f.set` (the start of the buffer), so the
trailing `b.size - sizeof t` buffer bytes are zero. -/
def New (b : Buf) (t : Ty) (f : Field) (v : Val) : Except String UnionVal :=
  if f.set = 0 then .error initMsg
  else if f.any then .ok { tag := f.tag, any := true, buf := .box t v }
  else .ok { tag := f.tag, any := false,
             buf := .raw (encode t v ++ List.replicate (b.size - sizeof t) 0) }

/-- Translation of `As.Lookup`: fail on an uninitialized descriptor, compare
discriminants, then read the payload — a type assertion on the boxed slot
(fatal when the dynamic type differs), or a typed read of the buffer bytes
at offset `f.set`, which sits at position `f.set - b.offset` inside the
buffer field. Reading storage of the wrong mode reinterprets unrelated
memory; the model makes that fatal. -/
def Lookup (b : Buf) (t : Ty) (f : Field) (u : UnionVal) : Except String (Val × Bool) :=
  if f.set = 0 then .error initMsg
  else if f.any then
    if u.tag ≠ f.tag then .ok (zeroVal t, false)
    else
      match u.buf with
      | .box dyn v => if dyn = t then .ok (v, true) else .error assertMsg
      | _ => .error misuseMsg
  else
    if u.tag ≠ f.tag then .ok (zeroVal t, false)
    else
      match u.buf with
      | .raw bs => .ok (decode t (bs.drop (f.set - b.offset)), true)
      | _ => .error misuseMsg

/-- Translation of `As.Get`: `Lookup`, then fatal on a discriminant
mismatch. -/
def Get (b : Buf) (t : Ty) (f : Field) (u : UnionVal) : Except String Val :=
  match Lookup b t f u with
  | .error e => .error e
  | .ok (v, found) => if found then .ok v else .error wrongTagMsg

/-- Translation of `UnionMethods.getTag`: package the union's live
discriminant, the buffer's offset within the union layout, and the live
boxed flag. -/
def getTag (b : Buf) (u : UnionVal) : Field :=
  { tag := u.tag, set := b.offset, any := u.any }

/-- Translation of `FieldOf`: rebuild, field by field, the descriptor
returned by `getTag`. -/
def FieldOf (b : Buf) (u : UnionVal) : Field :=
  { tag := (getTag b u).tag, set := (getTag b u).set, any := (getTag b u).any }

/-- The Go zero value of a union type: discriminant 0, boxed flag false, and
a zeroed buffer (all-zero bytes, or a nil `any` slot). -/
def zeroUnion (b : Buf) : UnionVal :=
  { tag := 0, any := false,
    buf := match b with
      | .bytes n => .raw (List.replicate n 0)
      | .anyBuf => .nilBox }

theorem int16ofNat_zero : int16ofNat 0 = 0 := by decide

theorem int16ofNat_inj (i j : Nat) (hi : i < 65536) (hj : j < 65536)
    (h : int16ofNat i = int16ofNat j) : i = j := by
  simp only [int16ofNat, Nat.mod_eq_of_lt hi, Nat.mod_eq_of_lt hj] at h
  split_ifs at h <;> omega

theorem load_ok_eq (t : Ty) (tag : Int) (direct : Bool) (buf offset : Nat)
    (f : Field) (h : load t tag direct buf offset = .ok f) :
    f = { tag := tag, set := offset, any := !direct } := by
  unfold load at h
  split at h
  · exact absurd h (by simp)
  · split at h
    · exact absurd h (by simp)
    · simpa using h.symm

theorem load_ok_checks (t : Ty) (tag : Int) (direct : Bool) (buf offset : Nat)
    (f : Field) (h : load t tag direct buf offset = .ok f) :
    (hasPointers t && direct) = false ∧ (direct && decide (buf < sizeof t)) = false := by
  unfold load at h
  split at h
  · exact absurd h (by simp)
  · split at h
    · exact absurd h (by simp)
    · constructor
      · rename_i hc _
        exact Bool.not_eq_true _ ▸ (by simpa using hc)
      · rename_i _ hc
        exact Bool.not_eq_true _ ▸ (by simpa using hc)

theorem load_ok_of_checks (t : Ty) (tag : Int) (direct : Bool) (buf offset : Nat)
    (h1 : (hasPointers t && direct) = false)
    (h2 : (direct && decide (buf < sizeof t)) = false) :
    load t tag direct buf offset = .ok { tag := tag, set := offset, any := !direct } := by
  unfold load
  rw [h1, h2]
  rfl

/-- Characterisation of a successful derivation loop: one descriptor per
alternative, in order, with consecutive `int16` discriminants, the buffer
offset, and the boxed flag complementing `direct`. -/
theorem valuesFrom_ok_get : ∀ (b : Buf) (direct : Bool) (i : Nat) (alts : List Ty)
    (fields : List Field),
    valuesFrom b direct i alts = .ok fields →
    fields.length = alts.length ∧
    ∀ j, j < alts.length →
      fields[j]? = some { tag := int16ofNat (i + j), set := b.offset, any := !direct }
  | b, direct, i, [], fields, h => by
    simp only [valuesFrom, Except.ok.injEq] at h
    subst h
    exact ⟨rfl, fun j hj => absurd hj (Nat.not_lt_zero j)⟩
  | b, direct, i, t :: ts, fields, h => by
    rw [valuesFrom] at h
    split at h
    · exact absurd h (by simp)
    · split at h
      · exact absurd h (by simp)
      · rename_i f hload
        split at h
        · exact absurd h (by simp)
        · rename_i fs hrest
          simp only [Except.ok.injEq] at h
          subst h
          obtain ⟨hlen, hget⟩ := valuesFrom_ok_get b direct (i + 1) ts fs hrest
          refine ⟨by simp [hlen], ?_⟩
          intro j hj
          cases j with
          | zero =>
            simp only [List.getElem?_cons_zero, Nat.add_zero]
            rw [load_ok_eq t (int16ofNat i) direct b.size b.offset f hload]
          | succ k =>
            simp only [List.getElem?_cons_succ]
            rw [hget k (by simpa using hj), show i + 1 + k = i + (k + 1) from by omega]

/-- A successful derivation loop implies every alternative passed `load`'s
declaration-time checks. -/
theorem valuesFrom_ok_checks : ∀ (b : Buf) (direct : Bool) (i : Nat) (alts : List Ty)
    (fields : List Field),
    valuesFrom b direct i alts = .ok fields →
    ∀ t ∈ alts, (hasPointers t && direct) = false ∧
      (direct && decide (b.size < sizeof t)) = false
  | b, direct, i, [], fields, _ => by simp
  | b, direct, i, t :: ts, fields, h => by
    rw [valuesFrom] at h
    split at h
    · exact absurd h (by simp)
    · split at h
      · exact absurd h (by simp)
      · rename_i f hload
        split at h
        · exact absurd h (by simp)
        · rename_i fs hrest
          intro s hs
          rcases List.mem_cons.mp hs with rfl | hs
          · exact load_ok_checks s (int16ofNat i) direct b.size b.offset f hload
          · exact valuesFrom_ok_checks b direct (i + 1) ts fs hrest s hs

/-- The derivation loop succeeds when the index stays below the guard and
every alternative passes `load`'s checks. -/
theorem valuesFrom_ok_of_checks : ∀ (b : Buf) (direct : Bool) (alts : List Ty) (i : Nat),
    i + alts.length ≤ 2147483648 →
    (∀ t ∈ alts, (hasPointers t && direct) = false ∧
      (direct && decide (b.size < sizeof t)) = false) →
    ∃ fields, valuesFrom b direct i alts = .ok fields
  | _, _, [], _, _, _ => ⟨[], rfl⟩
  | b, direct, t :: ts, i, hle, hchecks => by
    have hi : ¬ (2147483647 < i) := by
      simp only [List.length_cons] at hle
      omega
    obtain ⟨fs, hfs⟩ := valuesFrom_ok_of_checks b direct ts (i + 1)
      (by simp only [List.length_cons] at hle; omega)
      (fun s hs => hchecks s (List.mem_cons_of_mem t hs))
    refine ⟨{ tag := int16ofNat i, set := b.offset, any := !direct } :: fs, ?_⟩
    rw [valuesFrom, if_neg hi,
      load_ok_of_checks t (int16ofNat i) direct b.size b.offset
        (hchecks t (List.mem_cons_self t ts)).1 (hchecks t (List.mem_cons_self t ts)).2,
      hfs]

/-- The derivation loop fails when some alternative trips one of `load`'s
checks (the failure may also be the index guard, but it is a failure either
way). -/
theorem valuesFrom_error_of_bad : ∀ (b : Buf) (direct : Bool) (alts : List Ty) (i : Nat),
    (∃ t ∈ alts, (hasPointers t && direct) = true ∨
      (direct && decide (b.size < sizeof t)) = true) →
    ∃ e, valuesFrom b direct i alts = .error e
  | _, _, [], _, hbad => by simp at hbad
  | b, direct, t :: ts, i, hbad => by
    by_cases hi : 2147483647 < i
    · exact ⟨tooManyMsg, by rw [valuesFrom, if_pos hi]⟩
    · by_cases hb1 : (hasPointers t && direct) = true
      · refine ⟨pointersMsg, ?_⟩
        rw [valuesFrom, if_neg hi]
        unfold load
        rw [if_pos hb1]
      · by_cases hb2 : (direct && decide (b.size < sizeof t)) = true
        · refine ⟨tooSmallMsg, ?_⟩
          rw [valuesFrom, if_neg hi]
          unfold load
          rw [if_neg (by simp [hb1]), if_pos hb2]
        · have hbad2 : ∃ s ∈ ts, (hasPointers s && direct) = true ∨
              (direct && decide (b.size < sizeof s)) = true := by
            rcases hbad with ⟨s, hs, hcase⟩
            rcases List.mem_cons.mp hs with rfl | hs
            · rcases hcase with hc | hc
              · exact absurd hc hb1
              · exact absurd hc hb2
            · exact ⟨s, hs, hcase⟩
          obtain ⟨e, he⟩ := valuesFrom_error_of_bad b direct ts (i + 1) hbad2
          refine ⟨e, ?_⟩
          rw [valuesFrom, if_neg hi,
            load_ok_of_checks t (int16ofNat i) direct b.size b.offset
              (by simp [hb1]) (by simp [hb2]),
            he]

/-- On a fixed byte buffer, `Fields` is exactly the derivation loop with
`direct = true` (the buffer's reflect kind is Array). -/
theorem Fields_bytes (n : Nat) (alts : List Ty) :
    Fields (.bytes n) alts = valuesFrom (.bytes n) true 0 alts := rfl

/-- A successful `Fields` derivation forces a fixed byte buffer — the `any`
kind panics computing the buffer's reflect kind — and runs the loop with
`direct = true`. -/
theorem Fields_ok_elim (b : Buf) (alts : List Ty) (fields : List Field)
    (h : Fields b alts = .ok fields) :
    ∃ n, b = .bytes n ∧ valuesFrom (.bytes n) true 0 alts = .ok fields := by
  cases b with
  | bytes n => exact ⟨n, rfl, h⟩
  | anyBuf => exact absurd h (by simp [Fields, Buf.kindIsArray])

/-- The descriptor a successful `Fields` derivation assigns to alternative
`i`: the buffer is some fixed `[n]byte`, the descriptor carries the
truncated index as tag, offset 3 and inline storage, and the alternative
passed the declaration-time checks. -/
theorem Fields_ok_get (b : Buf) (alts : List Ty) (fields : List Field)
    (i : Nat) (t : Ty) (f : Field)
    (hder : Fields b alts = .ok fields)
    (ht : alts[i]? = some t) (hf : fields[i]? = some f) :
    ∃ n, b = .bytes n ∧
      f = { tag := int16ofNat i, set := 3, any := false } ∧
      i < alts.length ∧ hasPointers t = false ∧ sizeof t ≤ n := by
  obtain ⟨n, rfl, hok⟩ := Fields_ok_elim b alts fields hder
  have hi : i < alts.length := (List.getElem?_eq_some.mp ht).1
  obtain ⟨hlen, hget⟩ := valuesFrom_ok_get (.bytes n) true 0 alts fields hok
  have hmem : t ∈ alts := by
    obtain ⟨hlt, rfl⟩ := List.getElem?_eq_some.mp ht
    exact List.getElem_mem hlt
  have hfeq : f = { tag := int16ofNat i, set := 3, any := false } := by
    have h2 := hf.symm.trans (hget i hi)
    simpa [Buf.offset] using h2
  obtain ⟨hc1, hc2⟩ := valuesFrom_ok_checks (.bytes n) true 0 alts fields hok t hmem
  refine ⟨n, rfl, hfeq, hi, ?_, ?_⟩
  · simpa using hc1
  · have hlt : ¬ ((Buf.bytes n).size < sizeof t) := by simpa using hc2
    simpa [Buf.size] using Nat.le_of_not_lt hlt

/-- C1: round-trip — for a union type whose accessor bundle was derived via
`Fields`, for every alternative accessor (value type `t`, descriptor `f`)
and every value `v` of `t`, `New` succeeds and `Get` applied to the new
union value returns exactly `v` (recovered byte-for-byte from the inline
buffer, or structurally from the boxed slot). -/
theorem C1_roundtrip (b : Buf) (alts : List Ty) (fields : List Field)
    (i : Nat) (t : Ty) (f : Field) (v : Val)
    (hder : Fields b alts = .ok fields)
    (ht : alts[i]? = some t) (hf : fields[i]? = some f)
    (hv : HasTy v t = true) :
    ∃ u, New b t f v = .ok u ∧ Get b t f u = .ok v := by
  obtain ⟨n, rfl, hfeq, hi, hp, hsz⟩ := Fields_ok_get b alts fields i t f hder ht hf
  subst hfeq
  refine ⟨{ tag := int16ofNat i, any := false,
            buf := .raw (encode t v ++ List.replicate ((Buf.bytes n).size - sizeof t) 0) },
    by simp [New], ?_⟩
  simp [Get, Lookup, Buf.offset, decode_encode v t hv hp]

/-- Concrete instantiation of `C1_roundtrip`: a `[8]byte` union of `u32` and
`u64`, storing the `u32` value 314159. -/
theorem C1_roundtrip_witness :
    Fields (.bytes 8) [.u32, .u64] = .ok
      [{ tag := 0, set := 3, any := false }, { tag := 1, set := 3, any := false }] ∧
    ∃ u, New (.bytes 8) .u32 { tag := 0, set := 3, any := false } (.bits 314159) = .ok u ∧
      Get (.bytes 8) .u32 { tag := 0, set := 3, any := false } u = .ok (.bits 314159) :=
  ⟨rfl, C1_roundtrip (.bytes 8) [.u32, .u64]
    [{ tag := 0, set := 3, any := false }, { tag := 1, set := 3, any := false }]
    0 .u32 { tag := 0, set := 3, any := false } (.bits 314159)
    rfl rfl rfl (by decide)⟩

/-- C2: mismatch safety of `Lookup` — in a union type whose accessor bundle
was derived via `Fields` (within the documented limit of 65535
alternatives), probing a union value built via accessor `j` with accessor
`i` returns without fault; `found` is true exactly when the union's live
discriminant equals the probing descriptor's discriminant; whenever `found`
is false the returned value is exactly the zero value of the probed
alternative's type; and for a genuinely different accessor the result is
precisely `(zero, false)`. -/
theorem C2_lookup_mismatch (b : Buf) (alts : List Ty) (fields : List Field)
    (i j : Nat) (ti tj : Ty) (fi fj : Field) (w : Val) (u : UnionVal)
    (hder : Fields b alts = .ok fields)
    (hK : alts.length ≤ 65535)
    (hti : alts[i]? = some ti) (hfi : fields[i]? = some fi)
    (htj : alts[j]? = some tj) (hfj : fields[j]? = some fj)
    (hu : New b tj fj w = .ok u) :
    ∃ v found, Lookup b ti fi u = .ok (v, found) ∧
      (found = true ↔ u.tag = fi.tag) ∧
      (found = false → v = zeroVal ti) ∧
      (i ≠ j → Lookup b ti fi u = .ok (zeroVal ti, false)) := by
  obtain ⟨n, rfl, hok⟩ := Fields_ok_elim b alts fields hder
  have hi : i < alts.length := (List.getElem?_eq_some.mp hti).1
  have hj : j < alts.length := (List.getElem?_eq_some.mp htj).1
  obtain ⟨hlen, hget⟩ := valuesFrom_ok_get (.bytes n) true 0 alts fields hok
  have hfieq : fi = { tag := int16ofNat i, set := 3, any := false } := by
    have h2 := hfi.symm.trans (hget i hi)
    simpa [Buf.offset] using h2
  have hfjeq : fj = { tag := int16ofNat j, set := 3, any := false } := by
    have h2 := hfj.symm.trans (hget j hj)
    simpa [Buf.offset] using h2
  subst hfieq
  subst hfjeq
  by_cases hij : i = j
  · subst hij
    have htt : ti = tj := by
      rw [hti] at htj
      exact Option.some.inj htj
    subst htt
    simp [New] at hu
    subst hu
    refine ⟨decode ti (encode ti w ++ List.replicate ((Buf.bytes n).size - sizeof ti) 0),
      true, ?_, by simp, by simp, fun hne => absurd rfl hne⟩
    simp [Lookup, Buf.offset]
  · have hi16 : i < 65536 := by omega
    have hj16 : j < 65536 := by omega
    have htag : int16ofNat j ≠ int16ofNat i := fun hc =>
      hij (int16ofNat_inj j i hj16 hi16 hc).symm
    simp [New] at hu
    subst hu
    have hlk : Lookup (.bytes n) ti { tag := int16ofNat i, set := 3, any := false }
        { tag := int16ofNat j, any := false,
          buf := .raw (encode tj w ++ List.replicate ((Buf.bytes n).size - sizeof tj) 0) }
        = .ok (zeroVal ti, false) := by
      simp [Lookup, htag]
    exact ⟨zeroVal ti, false, hlk, by simp [htag], fun _ => rfl, fun _ => hlk⟩

/-- Concrete instantiation of `C2_lookup_mismatch`: in the `[8]byte` union
of `u32` and `u64`, a value built through the `u64` accessor probed through
the `u32` accessor yields `(0, false)`. -/
theorem C2_lookup_mismatch_witness :
    ∃ u, New (.bytes 8) .u64 { tag := 1, set := 3, any := false } (.bits 7) = .ok u ∧
    ∃ v found, Lookup (.bytes 8) .u32 { tag := 0, set := 3, any := false } u = .ok (v, found) ∧
      (found = true ↔ u.tag = (0 : Int)) ∧
      (found = false → v = zeroVal .u32) ∧
      ((0 : Nat) ≠ (1 : Nat) →
        Lookup (.bytes 8) .u32 { tag := 0, set := 3, any := false } u = .ok (zeroVal .u32, false)) := by
  refine ⟨{ tag := 1, any := false,
            buf := .raw (encode .u64 (.bits 7) ++ List.replicate (8 - sizeof .u64) 0) }, rfl, ?_⟩
  exact C2_lookup_mismatch (.bytes 8) [.u32, .u64]
    [{ tag := 0, set := 3, any := false }, { tag := 1, set := 3, any := false }]
    0 1 .u32 .u64 { tag := 0, set := 3, any := false } { tag := 1, set := 3, any := false }
    (.bits 7) _ rfl (by decide) rfl rfl rfl rfl rfl

/-- C3: discriminant fidelity — `FieldOf` applied to `A.New(v)` returns a
descriptor equal to `A`'s own descriptor (`Field` equality is componentwise:
discriminant tag, storage offset, boxed flag). -/
theorem C3_fieldOf_new (b : Buf) (alts : List Ty) (fields : List Field)
    (i : Nat) (t : Ty) (f : Field) (v : Val)
    (hder : Fields b alts = .ok fields)
    (ht : alts[i]? = some t) (hf : fields[i]? = some f) :
    ∃ u, New b t f v = .ok u ∧ FieldOf b u = f := by
  obtain ⟨n, rfl, hfeq, hi, hp, hsz⟩ := Fields_ok_get b alts fields i t f hder ht hf
  subst hfeq
  exact ⟨{ tag := int16ofNat i, any := false,
           buf := .raw (encode t v ++ List.replicate ((Buf.bytes n).size - sizeof t) 0) },
    by simp [New],
    by simp [FieldOf, getTag, Buf.offset]⟩

/-- Concrete instantiation of `C3_fieldOf_new`: the `u64` accessor of the
`[8]byte` union of `u32` and `u64`. -/
theorem C3_fieldOf_new_witness :
    ∃ u, New (.bytes 8) .u64 { tag := 1, set := 3, any := false } (.bits 99) = .ok u ∧
      FieldOf (.bytes 8) u = { tag := 1, set := 3, any := false } :=
  C3_fieldOf_new (.bytes 8) [.u32, .u64]
    [{ tag := 0, set := 3, any := false }, { tag := 1, set := 3, any := false }]
    1 .u64 { tag := 1, set := 3, any := false } (.bits 99) rfl rfl rfl

/-- C4: the unbounded (`any`) buffer kind never derives — `values` computes
`reflect.TypeOf(buffer).Kind()` on the zero `any` buffer, a nil interface,
so `reflect.TypeOf` returns nil and the `Kind` call panics with a
nil-pointer dereference before the derivation loop runs. `Fields` on an
`any`-buffered union therefore always fails — concretely on the
single-`u32` union, and on every alternative list — instead of succeeding
with boxed storage for every alternative as claimed. -/
theorem C4_unbounded_crashes :
    Fields .anyBuf [Ty.u32] = .error nilKindMsg ∧
    ∀ alts : List Ty, Fields .anyBuf alts = .error nilKindMsg :=
  ⟨rfl, fun _ => rfl⟩

/-- C5: the discriminant-space limit is not enforced at 65535 — the guard in
`values` compares the field index against `math.MaxInt32` (2147483647), not
65535, and converts the index through `int16`, which truncates. A union with
65537 byte-sized alternatives over a `[4]byte` buffer therefore derives
successfully, and alternative 65536 receives the same discriminant (0) as
alternative 0 instead of derivation failing fatally. -/
theorem C5_overflow :
    ∃ fields, Fields (.bytes 4) (List.replicate 65537 Ty.u8) = .ok fields ∧
      fields.length = 65537 ∧
      fields[0]? = some { tag := 0, set := 3, any := false } ∧
      fields[65536]? = some { tag := 0, set := 3, any := false } := by
  obtain ⟨fields, hok⟩ := valuesFrom_ok_of_checks (.bytes 4) true
    (List.replicate 65537 Ty.u8) 0
    (by norm_num)
    (fun t ht => by
      rw [List.eq_of_mem_replicate ht]
      exact ⟨by decide, by decide⟩)
  obtain ⟨hlen, hget⟩ := valuesFrom_ok_get (.bytes 4) true 0 _ fields hok
  refine ⟨fields, by rw [Fields_bytes]; exact hok, by rw [hlen, List.length_replicate], ?_, ?_⟩
  · rw [hget 0 (by norm_num)]
    decide
  · rw [hget 65536 (by norm_num)]
    decide

/-- C6: declaration-time faults — over a fixed `[n]byte` buffer, derivation
fails fatally whenever some alternative transitively contains a pointer-like
field or its byte size exceeds `n`; and per-value construction through a
successfully derived descriptor performs no structural re-validation: `New`
succeeds for every payload. -/
theorem C6_declaration_faults (n : Nat) (alts : List Ty) :
    ((∃ t ∈ alts, hasPointers t = true ∨ n < sizeof t) →
      ∃ e, Fields (.bytes n) alts = .error e) ∧
    (∀ fields, Fields (.bytes n) alts = .ok fields →
      ∀ (i : Nat) (f : Field), fields[i]? = some f →
        ∀ t v, ∃ u, New (.bytes n) t f v = .ok u) := by
  constructor
  · intro ⟨t, ht, hbad⟩
    rw [Fields_bytes]
    apply valuesFrom_error_of_bad
    refine ⟨t, ht, ?_⟩
    rcases hbad with h | h
    · exact Or.inl (by simp [h])
    · exact Or.inr (by simp [Buf.size, h])
  · intro fields hok i f hf t v
    rw [Fields_bytes] at hok
    obtain ⟨hlen, hget⟩ := valuesFrom_ok_get (.bytes n) true 0 alts fields hok
    have hi : i < fields.length := (List.getElem?_eq_some.mp hf).1
    have h2 := hget i (by omega)
    rw [hf] at h2
    have hfeq := Option.some.inj h2
    subst hfeq
    exact ⟨{ tag := int16ofNat (0 + i), any := false,
             buf := .raw (encode t v ++ List.replicate ((Buf.bytes n).size - sizeof t) 0) },
      by simp [New, Buf.offset]⟩

/-- Concrete instantiation of `C6_declaration_faults`: a pointer-free
`struct{uint64; uint8}` alternative — 9 payload bytes but `unsafe.Sizeof`
16 with padding — fails derivation over a `[12]byte` buffer; `New` through
the derived `u8` descriptor of a `[4]byte` union succeeds. -/
theorem C6_declaration_faults_witness :
    (∃ e, Fields (.bytes 12) [Ty.strctT [Ty.u64, Ty.u8]] = .error e) ∧
    (∃ u, New (.bytes 4) .u8 { tag := 0, set := 3, any := false } (.bits 7) = .ok u) :=
  ⟨(C6_declaration_faults 12 [Ty.strctT [Ty.u64, Ty.u8]]).1
     ⟨Ty.strctT [Ty.u64, Ty.u8], by simp, Or.inr (by decide)⟩,
   (C6_declaration_faults 4 [Ty.u8]).2 [{ tag := 0, set := 3, any := false }] rfl 0
     { tag := 0, set := 3, any := false } rfl Ty.u8 (.bits 7)⟩

/-- C7: uninitialized accessors fail loudly — for a descriptor whose
recorded offset is 0 (the zero-valued, never-derived `As` descriptor), each
of `New`, `Lookup` and `Get` fails with the dedicated initialization panic,
which is distinct from the wrong-tag panic `Get` raises on a discriminant
mismatch. -/
theorem C7_uninitialized (b : Buf) (t : Ty) (f : Field) (v : Val) (u : UnionVal)
    (h : f.set = 0) :
    New b t f v = .error initMsg ∧
    Lookup b t f u = .error initMsg ∧
    Get b t f u = .error initMsg ∧
    initMsg ≠ wrongTagMsg := by
  refine ⟨?_, ?_, ?_, by decide⟩
  · simp [New, h]
  · simp [Lookup, h]
  · simp [Get, Lookup, h]

/-- Concrete instantiation of `C7_uninitialized`: the zero-valued descriptor
used against the zero `[8]byte` union value. -/
theorem C7_uninitialized_witness :
    ({ tag := 0, set := 0, any := false } : Field).set = 0 ∧
    (New (.bytes 8) .u32 { tag := 0, set := 0, any := false } (.bits 1) = .error initMsg ∧
     Lookup (.bytes 8) .u32 { tag := 0, set := 0, any := false } (zeroUnion (.bytes 8)) = .error initMsg ∧
     Get (.bytes 8) .u32 { tag := 0, set := 0, any := false } (zeroUnion (.bytes 8)) = .error initMsg ∧
     initMsg ≠ wrongTagMsg) :=
  ⟨rfl, C7_uninitialized (.bytes 8) .u32 { tag := 0, set := 0, any := false } (.bits 1)
    (zeroUnion (.bytes 8)) rfl⟩

/-- C8: zero-value default — for a fixed-buffer union type with a derived
accessor bundle, the zero union value has discriminant 0, `FieldOf` applied
to it equals the first declared alternative's descriptor, and the first
alternative's `Lookup` on it reports `found = true`. -/
theorem C8_zero_union (n : Nat) (alts : List Ty) (fields : List Field)
    (t0 : Ty) (f0 : Field)
    (hder : Fields (.bytes n) alts = .ok fields)
    (ht0 : alts[0]? = some t0) (hf0 : fields[0]? = some f0) :
    (zeroUnion (.bytes n)).tag = 0 ∧
    FieldOf (.bytes n) (zeroUnion (.bytes n)) = f0 ∧
    ∃ v, Lookup (.bytes n) t0 f0 (zeroUnion (.bytes n)) = .ok (v, true) := by
  obtain ⟨m, _, hfeq, hi, _, _⟩ := Fields_ok_get (.bytes n) alts fields 0 t0 f0 hder ht0 hf0
  subst hfeq
  refine ⟨rfl, ?_, ?_⟩
  · simp [FieldOf, getTag, zeroUnion, Buf.offset, int16ofNat_zero]
  · refine ⟨decode t0 (List.replicate n 0), ?_⟩
    simp [Lookup, zeroUnion, Buf.offset, int16ofNat_zero]

/-- Concrete instantiation of `C8_zero_union`: the zero value of the
`[8]byte` union of `u32` and `u64`. -/
theorem C8_zero_union_witness :
    (zeroUnion (.bytes 8)).tag = 0 ∧
    FieldOf (.bytes 8) (zeroUnion (.bytes 8)) = { tag := 0, set := 3, any := false } ∧
    ∃ v, Lookup (.bytes 8) .u32 { tag := 0, set := 3, any := false } (zeroUnion (.bytes 8)) =
      .ok (v, true) :=
  C8_zero_union 8 [.u32, .u64]
    [{ tag := 0, set := 3, any := false }, { tag := 1, set := 3, any := false }]
    .u32 { tag := 0, set := 3, any := false } rfl rfl rfl

/-- C9: idempotent re-derivation — running `Fields` a second time on the
same union type (same buffer kind, same declared alternative list) succeeds
and yields descriptors equal component by component (discriminant tag,
storage offset, boxed flag) to those of the first run. -/
theorem C9_idempotent (b : Buf) (alts : List Ty) (fields : List Field)
    (h : Fields b alts = .ok fields) :
    ∃ fields2, Fields b alts = .ok fields2 ∧ fields2.length = fields.length ∧
      ∀ j, j < fields.length → ∃ f f2, fields[j]? = some f ∧ fields2[j]? = some f2 ∧
        f2.tag = f.tag ∧ f2.set = f.set ∧ f2.any = f.any := by
  refine ⟨fields, h, rfl, ?_⟩
  intro j hj
  have hf : fields[j]? = some fields[j] := List.getElem?_eq_some.mpr ⟨hj, rfl⟩
  exact ⟨fields[j], fields[j], hf, hf, rfl, rfl, rfl⟩

/-- Concrete instantiation of `C9_idempotent`: re-deriving the `[8]byte`
union of `u32` and `u64`. -/
theorem C9_idempotent_witness :
    ∃ fields2, Fields (.bytes 8) [Ty.u32, Ty.u64] = .ok fields2 ∧
      fields2.length = 2 ∧
      ∀ j, j < 2 → ∃ f f2,
        ([{ tag := 0, set := 3, any := false },
          { tag := 1, set := 3, any := false }] : List Field)[j]? = some f ∧
        fields2[j]? = some f2 ∧
        f2.tag = f.tag ∧ f2.set = f.set ∧ f2.any = f.any :=
  C9_idempotent (.bytes 8) [Ty.u32, Ty.u64]
    [{ tag := 0, set := 3, any := false }, { tag := 1, set := 3, any := false }] rfl

/-- C10: offset-sentinel soundness — the buffer field of `UnionMethods` is
preceded by the `int16` tag and the `bool` boxed flag, so its offset within
the union layout is strictly positive; every descriptor produced by a
successful derivation stores exactly that nonzero offset, and consequently
the `set == 0` test with which `New`, `Get` and `Lookup` detect an
uninitialized descriptor never fires on a derived accessor: `New` and
`Lookup` through a derived descriptor never fail with the initialization
panic. -/
theorem C10_offset_sentinel (b : Buf) (alts : List Ty) (fields : List Field)
    (h : Fields b alts = .ok fields) :
    0 < b.offset ∧
    (∀ f ∈ fields, f.set = b.offset ∧ f.set ≠ 0) ∧
    (∀ f ∈ fields, ∀ t v u, New b t f v ≠ .error initMsg ∧
      Lookup b t f u ≠ .error initMsg) := by
  obtain ⟨n, rfl, hok⟩ := Fields_ok_elim b alts fields h
  have hoff : 0 < (Buf.bytes n).offset := by simp [Buf.offset]
  obtain ⟨hlen, hget⟩ := valuesFrom_ok_get (.bytes n) true 0 alts fields hok
  have hsets : ∀ f ∈ fields, f.set = (Buf.bytes n).offset := by
    intro f hfmem
    obtain ⟨k, hk, hkf⟩ := List.getElem_of_mem hfmem
    have hk2 : fields[k]? = some f := List.getElem?_eq_some.mpr ⟨hk, hkf⟩
    have h2 := hget k (by omega)
    rw [hk2] at h2
    rw [Option.some.inj h2]
  refine ⟨hoff, fun f hf => ⟨hsets f hf, by rw [hsets f hf]; omega⟩, ?_⟩
  intro f hf t v u
  have hset : ¬ f.set = 0 := by rw [hsets f hf]; omega
  constructor
  · rw [New, if_neg hset]
    split <;> simp
  · rw [Lookup, if_neg hset]
    split
    · split
      · simp
      · split
        · split
          · simp
          · exact fun hcon => absurd (Except.error.inj hcon) (by decide)
        · exact fun hcon => absurd (Except.error.inj hcon) (by decide)
    · split
      · simp
      · split
        · simp
        · exact fun hcon => absurd (Except.error.inj hcon) (by decide)

/-- Concrete instantiation of `C10_offset_sentinel`: the `[8]byte` union of
`u32` and `u64`. -/
theorem C10_offset_sentinel_witness :
    0 < (Buf.bytes 8).offset ∧
    (∀ f ∈ ([{ tag := 0, set := 3, any := false },
             { tag := 1, set := 3, any := false }] : List Field),
      f.set = (Buf.bytes 8).offset ∧ f.set ≠ 0) ∧
    (∀ f ∈ ([{ tag := 0, set := 3, any := false },
             { tag := 1, set := 3, any := false }] : List Field),
      ∀ t v u, New (.bytes 8) t f v ≠ .error initMsg ∧
        Lookup (.bytes 8) t f u ≠ .error initMsg) :=
  C10_offset_sentinel (.bytes 8) [Ty.u32, Ty.u64]
    [{ tag := 0, set := 3, any := false }, { tag := 1, set := 3, any := false }] rfl

end Tagged
